import Mathlib

/-!
Formal model of the pyalgogem time-series store
(`pyalgogem/data/_access_hdf5.py`, `pyalgogem/data/_data_helpers.py`,
`pyalgogem/base/algo_env.py`) and of its backtest feature pipeline
(`pyalgogem/backtest/_dataset.py`), with theorems settling claims C1..C10.

Timestamps are modelled as natural numbers, prices as rationals (the pipeline
is additionally generic in the price type and in the `log` function supplied
by numpy, so that the concrete scenario over the reals can reuse it).

Python values that can flow into the store functions are modelled by `PyVal`;
a Python call either raises an exception (`POut.raised`) or returns a value,
possibly after printing console messages (`POut.ok printed val`).  The bare
`except:` blocks of the source catch whatever the HDF5 layer throws; the
`ioFails` parameter models whether the underlying open/read/write raises.
A failed open leaves the store unchanged.
-/

set_option maxRecDepth 8000

/-- The closed symbol enumeration of the store: the source guards every
operation with `symbol.upper() not in ['BTC', 'ETH']`. -/
inductive CoinSym where
  | BTC
  | ETH
deriving DecidableEq

/-- One stored price row: a timestamp key plus its close price (the other
numeric OHLCV fields play no role in any claim and are elided). -/
structure PriceRecord where
  ts : Nat
  close : ℚ
deriving DecidableEq

/-- One HDF5 container, partitioned per symbol (`f.root.BTC`, `f.root.ETH`),
each partition an append-only sequence of rows. -/
structure Store where
  btc : List PriceRecord
  eth : List PriceRecord
deriving DecidableEq

def Store.get (st : Store) : CoinSym → List PriceRecord
  | .BTC => st.btc
  | .ETH => st.eth

def Store.set (st : Store) : CoinSym → List PriceRecord → Store
  | .BTC, l => { st with btc := l }
  | .ETH, l => { st with eth := l }

/-- Running maximum of a list of naturals, seeded with an accumulator. -/
def natsMax : Nat → List Nat → Nat
  | a, [] => a
  | a, b :: l => natsMax (max a b) l

/-- Running minimum of a list of naturals, seeded with an accumulator. -/
def natsMin : Nat → List Nat → Nat
  | a, [] => a
  | a, b :: l => natsMin (min a b) l

/-- The maximal stored timestamp of a partition, or none when it is empty. -/
def maxTs? : List PriceRecord → Option Nat
  | [] => none
  | r :: rs => some (natsMax r.ts (rs.map (fun x => x.ts)))

/-- Modelled from the spec: `get_minmax_timeseries` is imported by
`_access_hdf5.py` from the data helpers, but its definition is not among the
source files.  Per the spec, the extent query returns the container's current
[min, max] timestamp range for the symbol, or "empty" when no rows are
stored. -/
def extentOf : List PriceRecord → Option Nat × Option Nat
  | [] => (none, none)
  | r :: rs =>
      (some (natsMin r.ts (rs.map (fun x => x.ts))),
       some (natsMax r.ts (rs.map (fun x => x.ts))))

/-- The candidate rows that survive the gap-avoiding filter: with an empty
extent everything is new, otherwise only rows strictly after the stored
maximum (rows inside or before the extent are dropped). -/
def keptRows (rows : List PriceRecord) : Option Nat → List PriceRecord
  | none => rows
  | some mx => rows.filter (fun r => decide (mx < r.ts))

/-- Modelled from the spec: `select_new_values` is called by
`AlgorithmEnvironment.update_all_historical` but is not among the source
files.  Per the spec, rows whose timestamp falls inside or before the
existing extent are considered already present and are dropped, and the
result is the "no new rows" marker (None) when nothing survives. -/
def select_new_values (rows : List PriceRecord) (old_min old_max : Option Nat) :
    Option (List PriceRecord) :=
  if keptRows rows old_max = [] then none else some (keptRows rows old_max)

/-- Rows of a partition whose timestamp lies in the inclusive range [a, b]
(`tstables` `read_range`, per the spec inclusive on both ends). -/
def readRange (rows : List PriceRecord) (a b : Nat) : List PriceRecord :=
  rows.filter (fun r => decide (a ≤ r.ts) && decide (r.ts ≤ b))

/-- The store-level read-all: `read_datafile(..., all_data=True)` reads the
extent and then the rows in that range; the result is absent when the extent
is empty. -/
def read_all (s : CoinSym) (st : Store) : Option (List PriceRecord) :=
  match extentOf (st.get s) with
  | (some a, some b) => some (readRange (st.get s) a b)
  | _ => none

/-- The append operation of `AlgorithmEnvironment.update_all_historical`:
fetch the current extent (`get_minmax_daterange`), drop the candidate rows
that are not new (`select_new_values`), and append the survivors
(`append_to_datafile`); a `None` selection is the documented no-op. -/
def append_hist (s : CoinSym) (rows : List PriceRecord) (st : Store) : Store :=
  match select_new_values rows (extentOf (st.get s)).1 (extentOf (st.get s)).2 with
  | none => st
  | some newRows => st.set s (st.get s ++ newRows)

/-- Python exceptions raised by the modelled code paths. -/
inductive PyErr where
  | valueError (msg : String)
  | typeError
deriving DecidableEq

/-- Outcome of a Python call: an uncaught exception, or a normal return
together with the list of console messages printed on the way. -/
inductive POut (α : Type) where
  | raised (e : PyErr)
  | ok (printed : List String) (val : α)
deriving DecidableEq

/-- Python values relevant to the store API surface. -/
inductive PyVal where
  | none_
  | str (s : String)
  | int (n : Int)
  | datetime (t : Nat)
  | date (d : Nat)
  | df (rows : List PriceRecord)
deriving DecidableEq

/-- Python `str(...)` on the values above.  Only `str` and `int` values reach
the file-name position in any claim; the remaining textual forms are
stand-ins. -/
def pyStr : PyVal → String
  | .str s => s
  | .int n => toString n
  | .none_ => "None"
  | .datetime t => "datetime-" ++ toString t
  | .date d => "date-" ++ toString d
  | .df _ => "DataFrame"

/-- Python `name[-3:]`: the last three characters (the whole string when it
is shorter). -/
def pyLast3 (s : String) : String := String.mk (s.data.drop (s.data.length - 3))

/-- The name-normalization step of `ensure_hdf5`: append `.h5` unless the
name already ends in it. -/
def hdf5Name (s : String) : String := if pyLast3 s ≠ ".h5" then s ++ ".h5" else s

/-- `ensure_hdf5` (`_data_helpers.py`): raise unless the argument is a
string, then normalize the suffix. -/
def ensure_hdf5 : PyVal → Except PyErr String
  | .str s => .ok (hdf5Name s)
  | _ => .error (.valueError "Please enter a valid name")

/-- `ensure_datetime` (`_data_helpers.py`): `type(datetime) in [dt.datetime,
dt.date]`. -/
def ensure_datetime : PyVal → Bool
  | .datetime _ => true
  | .date _ => true
  | _ => false

/-- Python subtraction `start - end` followed by `.total_seconds()`: defined
for two datetimes or two dates, a `TypeError` otherwise (`NotImplemented`
operand combinations). -/
def pySub : PyVal → PyVal → Except PyErr Int
  | .datetime a, .datetime b => .ok ((a : Int) - (b : Int))
  | .date a, .date b => .ok (((a : Int) - (b : Int)) * 86400)
  | _, _ => .error .typeError

/-- The timestamp carried by a datetime-like value. -/
def tsOf : PyVal → Option Nat
  | .datetime t => some t
  | .date d => some d
  | _ => none

def isNoneV : PyVal → Bool
  | .none_ => true
  | _ => false

/-- Python `str.upper()` (the symbols in play are plain ASCII). -/
def pyUpper (s : String) : String := String.mk (s.data.map Char.toUpper)

/-- `symbol.upper() in ['BTC', 'ETH']`. -/
def symValid (sym : String) : Bool := pyUpper sym == "BTC" || pyUpper sym == "ETH"

/-- The partition selected by the `if symbol.upper() == 'BTC'` branch. -/
def symOf (sym : String) : CoinSym := if pyUpper sym == "BTC" then CoinSym.BTC else CoinSym.ETH

/-- `append_to_datafile` (`_access_hdf5.py`): symbol check, DataFrame check,
name normalization via `str(file)`, then a try-block whose failure is caught
and printed; the write itself appends the rows to the symbol's partition. -/
def append_py (symbol : String) (data : PyVal) (file : PyVal) (st : Store)
    (ioFails : Bool) : POut (String × Store) :=
  if symValid symbol then
    match data with
    | .df rows =>
        match ensure_hdf5 (.str (pyStr file)) with
        | .error e => .raised e
        | .ok fname =>
            if ioFails then .ok ["Error appending to " ++ fname] (fname, st)
            else .ok [] (fname, st.set (symOf symbol) (st.get (symOf symbol) ++ rows))
    | _ => .raised (.valueError "Data must be Pandas DataFrame")
  else .raised (.valueError "Symbol must be BTC or ETH")

/-- `get_minmax_daterange` (`_access_hdf5.py`): symbol check, name
normalization, then a try-block that reads the extent; failure is caught and
printed (note the source's message typo "from to"), returning None. -/
def minmax_py (symbol : String) (file : PyVal) (st : Store) (ioFails : Bool) :
    POut (String × Option (Option Nat × Option Nat)) :=
  if symValid symbol then
    match ensure_hdf5 (.str (pyStr file)) with
    | .error e => .raised e
    | .ok fname =>
        if ioFails then .ok ["Error getting min-max dates from to " ++ fname] (fname, none)
        else .ok [] (fname, some (extentOf (st.get (symOf symbol))))
  else .raised (.valueError "Symbol must be BTC or ETH")

/-- The part of `read_datafile` from the symbol check onward: in the
`all_data` case the bounds are re-derived from the extent; a fully absent
range prints "No data found" and returns None; a read failure inside the
try-block is caught and printed. -/
def read_body (symbol : String) (start end_ : PyVal) (file : PyVal) (allData : Bool)
    (st : Store) (ioFails : Bool) : POut (String × Option (List PriceRecord)) :=
  if symValid symbol then
    match ensure_hdf5 (.str (pyStr file)) with
    | .error e => .raised e
    | .ok fname =>
        if ioFails then .ok ["Error reading from " ++ fname] (fname, none)
        else
          let series := st.get (symOf symbol)
          let p : PyVal × PyVal :=
            if allData then
              match extentOf series with
              | (some mn, some mx) => (.datetime mn, .datetime mx)
              | _ => (.none_, .none_)
            else (start, end_)
          if isNoneV p.1 && isNoneV p.2 then .ok ["No data found in " ++ fname] (fname, none)
          else
            match tsOf p.1, tsOf p.2 with
            | some a, some b => .ok [] (fname, some (readRange series a b))
            | _, _ => .ok ["Error reading from " ++ fname] (fname, none)
  else .raised (.valueError "Symbol must be BTC or ETH")

/-- `read_datafile` (`_access_hdf5.py`): when `all_data` is false the bounds
are first validated -- note the source combines the two validity checks with
`|`, so a single valid bound passes -- and compared via `start - end`; then
the body runs. -/
def read_py (symbol : String) (start end_ : PyVal) (file : PyVal) (allData : Bool)
    (st : Store) (ioFails : Bool) : POut (String × Option (List PriceRecord)) :=
  if allData then read_body symbol start end_ file allData st ioFails
  else
    if ensure_datetime start || ensure_datetime end_ then
      match pySub start end_ with
      | .error e => .raised e
      | .ok d =>
          if 0 ≤ d then .raised (.valueError "Start time must be prior to end time")
          else read_body symbol start end_ file allData st ioFails
    else .raised (.valueError "Must pass valid datetime arguments")

/-!
Embedding of `backtest/_dataset.py`.

A pandas frame is modelled by `DFrame`: a `close` column (plus the index
timestamp), an optional `returns` column, and `nlag` lag columns
`returns_1 .. returns_nlag`; cell values that pandas would hold as NaN are
`none`.  The pipeline is generic in the price type `α` and in the `log`
function (numpy's `log`, total on the values the claims exercise).
-/

/-- One row of the raw input table. -/
structure RawRow (α : Type) where
  ts : Nat
  close : α
deriving DecidableEq

/-- One row of a derived frame. -/
structure FRow (α : Type) where
  ts : Nat
  close : α
  ret : Option α
  lags : List (Option α)
deriving DecidableEq

/-- A derived pandas frame: which extra columns exist, and the rows. -/
structure DFrame (α : Type) where
  hasRet : Bool
  nlag : Nat
  rows : List (FRow α)
deriving DecidableEq

/-- The state of a `Dataset` object: its three attributes. -/
structure Dataset (α : Type) where
  raw : Option (List (RawRow α))
  sample : Option (DFrame α)
  nlags : Option Int
deriving DecidableEq

/-- `raw.copy()` viewed as a derived frame (no returns column yet). -/
def rawFrame {α : Type} (r : List (RawRow α)) : DFrame α :=
  { hasRet := false, nlag := 0, rows := r.map (fun x => ⟨x.ts, x.close, none, []⟩) }

/-- pandas `close.shift(1)`: the previous close, NaN in the first row. -/
def shift1 {α : Type} (closes : List α) : List (Option α) :=
  (none :: closes.map some).take closes.length

/-- pandas `dropna()`: keep only rows with no NaN in any existing column. -/
def dropna {α : Type} (f : DFrame α) : DFrame α :=
  { f with
    rows := f.rows.filter
      (fun row => (!f.hasRet || row.ret.isSome) && row.lags.all (fun v => v.isSome)) }

/-- The LogReturns frame: `data['returns'] = log(close / close.shift(1))`
on a fresh raw copy, followed by `dropna()` (`Dataset.add_log_returns`). -/
def logretF {α : Type} [Div α] (log : α → α) (r : List (RawRow α)) : DFrame α :=
  let f0 := rawFrame r
  let closes := f0.rows.map (fun row => row.close)
  let rets := List.zipWith (fun c p => Option.map (fun q => log (c / q)) p)
    closes (shift1 closes)
  dropna { hasRet := true, nlag := f0.nlag,
           rows := List.zipWith (fun row v => { row with ret := v }) f0.rows rets }

/-- Structural indexed map used to attach per-row lag cells. -/
def mapNth {β γ : Type} (f : Nat → β → γ) : Nat → List β → List γ
  | _, [] => []
  | i, b :: bs => f i b :: mapNth f (i + 1) bs

/-- The lag-column loop of `Dataset.set_return_lags`: for `num = 1..k` add
`returns_num = returns.shift(num)` (the names are fresh here, since the frame
was just recomputed by `add_log_returns`, so the `not in data.columns` guard
always passes). -/
def addLags {α : Type} (g : DFrame α) (k : Nat) : DFrame α :=
  let retcol := g.rows.map (fun row => row.ret)
  { hasRet := g.hasRet, nlag := k,
    rows := mapNth (fun i row =>
      { row with lags := (List.range k).map (fun j =>
          if j + 1 ≤ i then (retcol.get? (i - (j + 1))).getD none else none) }) 0 g.rows }

/-- The lagged frame derived from raw data and a lag count. -/
def laggedF {α : Type} [Div α] (log : α → α) (r : List (RawRow α)) (k : Int) : DFrame α :=
  dropna (addLags (logretF log r) k.toNat)

/-- `Dataset.add_log_returns`: reset the sample to a raw copy, add the
returns column, drop NaNs, and reset `nlags` to None via the property
setter.  With no raw table, `reset_sample_data` leaves `sample = None` and
the subsequent column assignment on `None` raises a `TypeError`. -/
def add_log_returns {α : Type} [Div α] (log : α → α) (ds : Dataset α) :
    Except PyErr (Dataset α) :=
  match ds.raw with
  | none => .error .typeError
  | some r => .ok { ds with sample := some (logretF log r), nlags := none }

/-- `Dataset.set_return_lags`: validate the lag count (its type and `> 1`,
then `nlags > len(self.sample) + 1` against the *current* sample), recompute
the LogReturns frame from raw, attach the lag columns, and drop incomplete
rows. -/
def set_return_lags {α : Type} [Div α] (log : α → α) (ds : Dataset α) (k : Int) :
    Except PyErr (Dataset α) :=
  if ¬(1 < k) then .error (.valueError "Must have more than one lag")
  else
    match ds.sample with
    | none => .error .typeError
    | some f =>
        if (f.rows.length : Int) + 1 < k then
          .error (.valueError "Must have less lags than length of sample dataset")
        else
          match add_log_returns log ds with
          | .error e => .error e
          | .ok ds1 =>
              match ds1.sample with
              | none => .error .typeError
              | some g => .ok { ds1 with sample := some (dropna (addLags g k.toNat)) }

/-- The `nlags` property setter: `None` clears the attribute only; an integer
is validated (`> 1`), the lags are recomputed, and the attribute stored. -/
def nlags_setter {α : Type} [Div α] (log : α → α) (ds : Dataset α) (v : Option Int) :
    Except PyErr (Dataset α) :=
  match v with
  | none => .ok { ds with nlags := none }
  | some k =>
      if k ≤ 1 then .error (.valueError "Must be greater than 1")
      else
        match set_return_lags log ds k with
        | .error e => .error e
        | .ok ds1 => .ok { ds1 with nlags := some k }

/-- The `raw` property setter: store the new raw table, mirror it into
`sample`, and (when present) recompute the LogReturns frame. -/
def raw_setter {α : Type} [Div α] (log : α → α) (ds : Dataset α)
    (v : Option (List (RawRow α))) : Except PyErr (Dataset α) :=
  match v with
  | none => .ok { ds with raw := none, sample := none }
  | some r => add_log_returns log { ds with raw := some r, sample := some (rawFrame r) }

/-- `Dataset.__init__`: assign `raw` through its setter, then `nlags = None`
through its setter. -/
def dataset_init {α : Type} [Div α] (log : α → α) (input : Option (List (RawRow α))) :
    Except PyErr (Dataset α) :=
  match raw_setter log { raw := none, sample := none, nlags := none } input with
  | .error e => .error e
  | .ok ds => nlags_setter log ds none

/-- The spec's pipeline output (section 4.2) for a raw table and a lag
setting. -/
def pipelineSpec {α : Type} [Div α] (log : α → α) (r : List (RawRow α)) :
    Option Int → DFrame α
  | none => logretF log r
  | some k => laggedF log r k

/-- Public operations on a `Dataset` (construction is `dataset_init`). -/
inductive DsOp (α : Type) where
  | setRaw (v : Option (List (RawRow α)))
  | setN (v : Option Int)
deriving DecidableEq

def applyOp {α : Type} [Div α] (log : α → α) (ds : Dataset α) :
    DsOp α → Except PyErr (Dataset α)
  | .setRaw v => raw_setter log ds v
  | .setN v => nlags_setter log ds v

def runOps {α : Type} [Div α] (log : α → α) (ds : Dataset α) :
    List (DsOp α) → Except PyErr (Dataset α)
  | [] => .ok ds
  | op :: rest =>
      match applyOp log ds op with
      | .error e => .error e
      | .ok ds1 => runOps log ds1 rest

/-- The state invariant that the code actually maintains: `sample` is the
pipeline output of the current `raw` for the lag setting in force when it was
last recomputed; after a `set_nlags(None)` that setting can differ from the
stored `nlags` attribute (which is then None). -/
def sampleInv {α : Type} [Div α] (log : α → α) (ds : Dataset α) : Prop :=
  (ds.raw = none ∧ ds.sample = none) ∨
  (∃ r k, ds.raw = some r ∧ ds.sample = some (pipelineSpec log r k) ∧
    (ds.nlags = k ∨ ds.nlags = none))

/-- Boolean success test for an `Except` result. -/
def exceptIsOk {ε β : Type} : Except ε β → Bool
  | .ok _ => true
  | .error _ => false

/-- `Except` results viewed as sums, for decidable equality. -/
def exceptToSum {ε β : Type} : Except ε β → ε ⊕ β
  | .error e => .inl e
  | .ok b => .inr b

instance {ε β : Type} [DecidableEq ε] [DecidableEq β] : DecidableEq (Except ε β) := fun x y =>
  decidable_of_iff (exceptToSum x = exceptToSum y) (by
    cases x <;> cases y <;> simp [exceptToSum])

/-- The identity map on integers, used as the `log` stand-in wherever a
claim is settled on concrete inputs whose logarithm value is irrelevant
(only the shape of the derived frames matters there). -/
def qid : Int → Int := fun x => x

/-- The spec's concrete scenario: raw closes [100, 110, 121]. -/
def rawC3 : List (RawRow ℝ) := [⟨0, 100⟩, ⟨1, 110⟩, ⟨2, 121⟩]

/-- Concrete raw table with five rows (C4 counterexample input). -/
def rawA : List (RawRow Int) := [⟨0, 1⟩, ⟨1, 2⟩, ⟨2, 3⟩, ⟨3, 4⟩, ⟨4, 5⟩]

/-- Concrete raw table with six rows (C4 witness input). -/
def rawB : List (RawRow Int) := [⟨0, 1⟩, ⟨1, 2⟩, ⟨2, 3⟩, ⟨3, 4⟩, ⟨4, 5⟩, ⟨5, 6⟩]

/-- Concrete raw table with four rows (C5 counterexample input). -/
def rawC : List (RawRow Int) := [⟨0, 2⟩, ⟨1, 4⟩, ⟨2, 8⟩, ⟨3, 16⟩]

/-- Concrete raw table with four rows (C5 witness input). -/
def rawD : List (RawRow Int) := [⟨0, 1⟩, ⟨1, 3⟩, ⟨2, 9⟩, ⟨3, 27⟩]

/-- Concrete raw table with four rows (C7 counterexample input). -/
def rawE : List (RawRow Int) := [⟨0, 5⟩, ⟨1, 10⟩, ⟨2, 20⟩, ⟨3, 40⟩]

/-!  Helper lemmas. -/

lemma Store.get_set (st : Store) (s : CoinSym) (l : List PriceRecord) :
    (st.set s l).get s = l := by
  cases s <;> rfl

lemma le_natsMax (l : List Nat) (a : Nat) : a ≤ natsMax a l := by
  induction l generalizing a with
  | nil => exact le_rfl
  | cons b l ih => exact le_trans (le_max_left a b) (ih (max a b))

lemma mem_le_natsMax (l : List Nat) : ∀ (a x : Nat), x ∈ l → x ≤ natsMax a l := by
  induction l with
  | nil => intro a x hx; cases hx
  | cons b l ih =>
      intro a x hx
      cases hx with
      | head => exact le_trans (le_max_right a _) (le_natsMax l _)
      | tail _ h => exact ih (max a b) _ h

lemma natsMax_append (l₁ l₂ : List Nat) (a : Nat) :
    natsMax a (l₁ ++ l₂) = natsMax (natsMax a l₁) l₂ := by
  induction l₁ generalizing a with
  | nil => rfl
  | cons b l ih => exact ih (max a b)

lemma le_maxTs (l : List PriceRecord) (m : Nat) (h : maxTs? l = some m) :
    ∀ r ∈ l, r.ts ≤ m := by
  cases l with
  | nil => cases h
  | cons r rs =>
      have hm : natsMax r.ts (rs.map (fun y => y.ts)) = m := by
        simpa [maxTs?] using h
      intro x hx
      cases hx with
      | head => exact hm ▸ le_natsMax (rs.map (fun y => y.ts)) _
      | tail _ hmem =>
          have hx' : x.ts ∈ rs.map (fun y => y.ts) := List.mem_map_of_mem _ hmem
          exact hm ▸ mem_le_natsMax (rs.map (fun y => y.ts)) r.ts x.ts hx'

lemma maxTs_append (l k : List PriceRecord) (m : Nat) (h : maxTs? l = some m) :
    ∃ m₂, maxTs? (l ++ k) = some m₂ ∧ m ≤ m₂ := by
  cases l with
  | nil => cases h
  | cons r rs =>
      have hm : natsMax r.ts (rs.map (fun y => y.ts)) = m := by
        simpa [maxTs?] using h
      refine ⟨natsMax r.ts ((rs ++ k).map (fun y => y.ts)), by simp [maxTs?], ?_⟩
      rw [List.map_append, natsMax_append, hm]
      exact le_natsMax _ m

lemma extentOf_snd (l : List PriceRecord) : (extentOf l).2 = maxTs? l := by
  cases l <;> rfl

lemma select_some (R : List PriceRecord) (mn mx : Option Nat) (kept : List PriceRecord)
    (h : select_new_values R mn mx = some kept) :
    kept ≠ [] ∧ keptRows R mx = kept := by
  unfold select_new_values at h
  split at h
  · cases h
  · rename_i hne
    injection h with h'
    exact ⟨h' ▸ hne, h'⟩

lemma filter_eq_nil_of_false {p : PriceRecord → Bool} :
    ∀ l : List PriceRecord, (∀ a ∈ l, p a = false) → l.filter p = [] := by
  intro l
  induction l with
  | nil => intro _; rfl
  | cons b l ih =>
      intro h
      have hb := h b (List.mem_cons_self b l)
      simp [List.filter, hb, ih (fun a ha => h a (List.mem_cons_of_mem _ ha))]

lemma append_hist_none {s : CoinSym} {R : List PriceRecord} {st : Store}
    (h : select_new_values R (extentOf (st.get s)).1 (extentOf (st.get s)).2 = none) :
    append_hist s R st = st := by
  unfold append_hist
  rw [h]

lemma append_hist_idem (s : CoinSym) (R : List PriceRecord) (st : Store) :
    append_hist s R (append_hist s R st) = append_hist s R st := by
  cases h1 : select_new_values R (extentOf (st.get s)).1 (extentOf (st.get s)).2 with
  | none =>
      have hst : append_hist s R st = st := append_hist_none h1
      rw [hst, hst]
  | some kept =>
      have hst : append_hist s R st = st.set s (st.get s ++ kept) := by
        unfold append_hist
        rw [h1]
      rw [extentOf_snd] at h1
      obtain ⟨hne, hkept⟩ := select_some R _ _ kept h1
      -- the combined partition after the first call
      have hget : (append_hist s R st).get s = st.get s ++ kept := by
        rw [hst, Store.get_set]
      -- its maximum dominates every candidate timestamp
      have hmax : ∃ m₂, maxTs? (st.get s ++ kept) = some m₂ ∧ ∀ r ∈ R, r.ts ≤ m₂ := by
        cases hmx : maxTs? (st.get s) with
        | none =>
            -- empty partition: everything was kept
            have hl : st.get s = [] := by
              cases hl' : st.get s with
              | nil => rfl
              | cons a as => rw [hl'] at hmx; cases hmx
            have hkR : kept = R := by rw [← hkept, hmx]; rfl
            cases hm2 : maxTs? (st.get s ++ kept) with
            | none =>
                exfalso
                rw [hl, List.nil_append] at hm2
                cases hK : kept with
                | nil => exact hne hK
                | cons a as => rw [hK] at hm2; cases hm2
            | some m₂ =>
                refine ⟨m₂, rfl, ?_⟩
                intro r hr
                refine le_maxTs _ _ hm2 r ?_
                rw [hl, List.nil_append, hkR]
                exact hr
        | some mx =>
            have hkF : R.filter (fun r => decide (mx < r.ts)) = kept := by
              rw [← hkept, hmx]; rfl
            obtain ⟨m₂, hm2, hle⟩ := maxTs_append (st.get s) kept mx hmx
            refine ⟨m₂, hm2, ?_⟩
            intro r hr
            by_cases hlt : mx < r.ts
            · have hrk : r ∈ kept := by
                rw [← hkF]
                exact List.mem_filter.mpr ⟨hr, by simpa using hlt⟩
              exact le_maxTs _ _ hm2 r (List.mem_append.mpr (Or.inr hrk))
            · exact le_trans (Nat.le_of_not_lt hlt) hle
      obtain ⟨m₂, hm2, hdom⟩ := hmax
      -- the second selection keeps nothing
      have hsel2 : select_new_values R (extentOf ((append_hist s R st).get s)).1
          (extentOf ((append_hist s R st).get s)).2 = none := by
        rw [extentOf_snd, hget, hm2]
        unfold select_new_values
        have hf : keptRows R (some m₂) = [] := by
          unfold keptRows
          exact filter_eq_nil_of_false R
            (fun a ha => decide_eq_false (Nat.not_lt.mpr (hdom a ha)))
        rw [hf]
        rfl
      exact append_hist_none hsel2


lemma add_log_returns_ok {α : Type} [Div α] {log : α → α} {ds ds1 : Dataset α}
    (h : add_log_returns log ds = .ok ds1) :
    ∃ r, ds.raw = some r ∧ ds1 = ⟨some r, some (logretF log r), none⟩ := by
  unfold add_log_returns at h
  split at h
  · cases h
  · rename_i r hr
    injection h with h'
    subst h'
    refine ⟨r, hr, ?_⟩
    cases ds with
    | mk rawf samplef nlagsf =>
        simp only at hr
        rw [hr]

lemma set_return_lags_ok {α : Type} [Div α] {log : α → α} {ds ds1 : Dataset α} {k : Int}
    (h : set_return_lags log ds k = .ok ds1) :
    ∃ r f, ds.raw = some r ∧ ds.sample = some f ∧ 1 < k ∧ k ≤ (f.rows.length : Int) + 1 ∧
      ds1 = ⟨some r, some (laggedF log r k), none⟩ := by
  unfold set_return_lags at h
  split at h
  · cases h
  · rename_i hk1
    split at h
    · cases h
    · rename_i f hf
      split at h
      · cases h
      · rename_i hlen
        cases har : add_log_returns log ds with
        | error e => rw [har] at h; cases h
        | ok dsa =>
            rw [har] at h
            obtain ⟨r, hr, hdsa⟩ := add_log_returns_ok har
            subst hdsa
            injection h with h'
            subst h'
            exact ⟨r, f, hr, hf, by omega, by omega, rfl⟩

lemma nlags_setter_some_ok {α : Type} [Div α] {log : α → α} {ds ds' : Dataset α} {k : Int}
    (h : nlags_setter log ds (some k) = .ok ds') :
    ∃ r f, ds.raw = some r ∧ ds.sample = some f ∧ 1 < k ∧ k ≤ (f.rows.length : Int) + 1 ∧
      ds' = ⟨some r, some (laggedF log r k), some k⟩ := by
  unfold nlags_setter at h
  split at h
  · rename_i heq
    exact Option.noConfusion heq
  · rename_i k2 heq
    injection heq with hk
    subst hk
    split at h
    · cases h
    · cases hsr : set_return_lags log ds k with
      | error e => rw [hsr] at h; cases h
      | ok ds1 =>
          rw [hsr] at h
          obtain ⟨r, f, hr, hf, hk1, hlen, hds1⟩ := set_return_lags_ok hsr
          subst hds1
          injection h with h'
          subst h'
          exact ⟨r, f, hr, hf, hk1, hlen, rfl⟩

lemma nlags_setter_some_eval {α : Type} [Div α] (log : α → α) (ds : Dataset α)
    (r : List (RawRow α)) (f : DFrame α) (k : Int)
    (hraw : ds.raw = some r) (hs : ds.sample = some f)
    (hk1 : 1 < k) (hk2 : k ≤ (f.rows.length : Int) + 1) :
    nlags_setter log ds (some k) = .ok ⟨some r, some (laggedF log r k), some k⟩ := by
  have h1 : ¬(k ≤ 1) := by omega
  have h2 : ¬((f.rows.length : Int) + 1 < k) := by omega
  unfold nlags_setter set_return_lags add_log_returns
  rw [hraw, hs]
  simp [h1, h2, hk1, laggedF]

lemma raw_setter_inv {α : Type} [Div α] {log : α → α} {ds ds' : Dataset α}
    {v : Option (List (RawRow α))} (h : raw_setter log ds v = .ok ds') :
    sampleInv log ds' := by
  cases v with
  | none =>
      unfold raw_setter at h
      injection h with h'
      subst h'
      left
      exact ⟨rfl, rfl⟩
  | some r =>
      unfold raw_setter at h
      obtain ⟨r2, hr2, hds'⟩ := add_log_returns_ok h
      subst hds'
      right
      exact ⟨r2, none, rfl, rfl, Or.inr rfl⟩

lemma nlags_setter_inv {α : Type} [Div α] {log : α → α} {ds ds' : Dataset α}
    {v : Option Int} (hInv : sampleInv log ds) (h : nlags_setter log ds v = .ok ds') :
    sampleInv log ds' := by
  cases v with
  | none =>
      unfold nlags_setter at h
      injection h with h'
      subst h'
      cases hInv with
      | inl hl => left; exact ⟨hl.1, hl.2⟩
      | inr hr =>
          obtain ⟨r, k, h1, h2, _⟩ := hr
          right
          exact ⟨r, k, h1, h2, Or.inr rfl⟩
  | some k =>
      obtain ⟨r, f, _, _, _, _, hds'⟩ := nlags_setter_some_ok h
      subst hds'
      right
      exact ⟨r, some k, rfl, rfl, Or.inl rfl⟩

lemma runOps_inv {α : Type} [Div α] {log : α → α} :
    ∀ (ops : List (DsOp α)) (ds ds' : Dataset α),
      sampleInv log ds → runOps log ds ops = .ok ds' → sampleInv log ds' := by
  intro ops
  induction ops with
  | nil =>
      intro ds ds' h hr
      unfold runOps at hr
      injection hr with h'
      exact h' ▸ h
  | cons op rest ih =>
      intro ds ds' h hr
      unfold runOps at hr
      cases hop : applyOp log ds op with
      | error e => rw [hop] at hr; cases hr
      | ok ds1 =>
          rw [hop] at hr
          refine ih ds1 ds' ?_ hr
          cases op with
          | setRaw v => exact raw_setter_inv hop
          | setN v => exact nlags_setter_inv h hop

/-!  Claim theorems. -/

/-- C1: for every symbol and ordered row set R, appending R twice against the
same container yields the same store, hence the same extent and the same
read-all result, as appending it once: each call drops every row whose
timestamp lies inside or before the symbol's existing extent before
writing. -/
theorem C1_append_idempotent (s : CoinSym) (R : List PriceRecord) (st : Store) :
    append_hist s R (append_hist s R st) = append_hist s R st ∧
    extentOf ((append_hist s R (append_hist s R st)).get s)
      = extentOf ((append_hist s R st).get s) ∧
    read_all s (append_hist s R (append_hist s R st)) = read_all s (append_hist s R st) := by
  refine ⟨append_hist_idem s R st, ?_, ?_⟩ <;> rw [append_hist_idem s R st]

/-- C2 (amended): validation failures before the I/O section raise typed
errors, but a failure inside the storage I/O section of append, read-all or
extent is caught: the operation prints an error message and returns
normally instead of propagating a typed failure. -/
theorem C2_io_failures_swallowed (sym : String)
    (hs : pyUpper sym = "BTC" ∨ pyUpper sym = "ETH")
    (rows : List PriceRecord) (file : PyVal) (st : Store) :
    append_py sym (.df rows) file st true
      = .ok ["Error appending to " ++ hdf5Name (pyStr file)] (hdf5Name (pyStr file), st) ∧
    minmax_py sym file st true
      = .ok ["Error getting min-max dates from to " ++ hdf5Name (pyStr file)]
          (hdf5Name (pyStr file), none) ∧
    read_py sym .none_ .none_ file true st true
      = .ok ["Error reading from " ++ hdf5Name (pyStr file)] (hdf5Name (pyStr file), none) := by
  have hb : symValid sym = true := by
    unfold symValid
    cases hs with
    | inl h => rw [h]; rfl
    | inr h => rw [h]; rfl
  refine ⟨?_, ?_, ?_⟩ <;> simp [append_py, minmax_py, read_py, read_body, ensure_hdf5, hb]

/-- C2 witness: the swallowed-failure behavior at a concrete input. -/
theorem C2_io_failures_swallowed_witness :
    append_py "BTC" (.df []) (.str "d") (Store.mk [] []) true
      = .ok ["Error appending to " ++ hdf5Name (pyStr (.str "d"))]
          (hdf5Name (pyStr (.str "d")), Store.mk [] []) ∧
    minmax_py "BTC" (.str "d") (Store.mk [] []) true
      = .ok ["Error getting min-max dates from to " ++ hdf5Name (pyStr (.str "d"))]
          (hdf5Name (pyStr (.str "d")), none) ∧
    read_py "BTC" .none_ .none_ (.str "d") true (Store.mk [] []) true
      = .ok ["Error reading from " ++ hdf5Name (pyStr (.str "d"))]
          (hdf5Name (pyStr (.str "d")), none) :=
  C2_io_failures_swallowed "BTC" (Or.inl (by decide)) [] (.str "d") (Store.mk [] [])

/-- C2 counterexample: a storage failure during append is printed and
swallowed -- the call returns normally with the original store instead of
surfacing a typed failure, refuting the claim that no failure path is
swallowed after printing a message. -/
theorem C2_print_and_return :
    append_py "BTC" (.df [⟨5, 1⟩]) (.str "data") (Store.mk [] []) true
      = .ok ["Error appending to data.h5"] ("data.h5", Store.mk [] []) := by
  decide

/-- C3 (amended): on raw closes [100, 110, 121] the LogReturns sample has
exactly 2 rows whose returns equal ln(110/100) and ln(121/110); calling
`set_nlags(2)` on this 2-row sample then succeeds -- the validation only
rejects `nlags > len(sample) + 1` -- and produces an empty sample with two
lag columns. -/
theorem C3_concrete_scenario :
    dataset_init Real.log (some rawC3)
      = .ok ⟨some rawC3, some ⟨true, 0,
          [⟨1, 110, some (Real.log (110 / 100)), []⟩,
           ⟨2, 121, some (Real.log (121 / 110)), []⟩]⟩, none⟩ ∧
    nlags_setter Real.log
      (⟨some rawC3, some ⟨true, 0,
          [⟨1, 110, some (Real.log (110 / 100)), []⟩,
           ⟨2, 121, some (Real.log (121 / 110)), []⟩]⟩, none⟩ : Dataset ℝ)
      (some 2)
      = .ok ⟨some rawC3, some ⟨true, 2, []⟩, some 2⟩ := by
  constructor <;> rfl

/-- C3 counterexample: `set_nlags(2)` on the 2-row LogReturns sample built
from raw closes [100, 110, 121] succeeds rather than failing with the lag
count error the claim asserts. -/
theorem C3_set_nlags_two_succeeds :
    exceptIsOk ((dataset_init Real.log (some rawC3)).bind
      (fun ds => nlags_setter Real.log ds (some 2))) = true := by
  rfl

/-- C4 (amended): recomputation itself is deterministic -- a second
`set_nlags(k)` that passes validation reproduces the identical dataset --
but the validation of the second call runs against the already-lagged
current sample, so it only succeeds when `k` also fits that shorter
sample (`k ≤ len(lagged sample) + 1`). -/
theorem C4_second_call_needs_revalidation {α : Type} [Div α] (log : α → α)
    (ds ds' : Dataset α) (k : Int) (f : DFrame α)
    (h : nlags_setter log ds (some k) = .ok ds')
    (hs : ds'.sample = some f)
    (hlen : k ≤ (f.rows.length : Int) + 1) :
    nlags_setter log ds' (some k) = .ok ds' := by
  obtain ⟨r, f0, hraw, hs0, hk1, hk2, hds'⟩ := nlags_setter_some_ok h
  subst hds'
  have hf : f = laggedF log r k := by
    injection hs with h'
    exact h'.symm
  subst hf
  exact nlags_setter_some_eval log _ r (laggedF log r k) k rfl rfl hk1 hlen

/-- C4 witness: on six raw closes and `k = 2` both calls succeed and agree. -/
theorem C4_second_call_witness :
    nlags_setter qid (Dataset.mk (some rawB) (some (logretF qid rawB)) none) (some 2)
      = .ok (Dataset.mk (some rawB) (some (laggedF qid rawB 2)) (some 2)) ∧
    nlags_setter qid (Dataset.mk (some rawB) (some (laggedF qid rawB 2)) (some 2)) (some 2)
      = .ok (Dataset.mk (some rawB) (some (laggedF qid rawB 2)) (some 2)) :=
  ⟨by decide,
    C4_second_call_needs_revalidation qid
      (Dataset.mk (some rawB) (some (logretF qid rawB)) none)
      (Dataset.mk (some rawB) (some (laggedF qid rawB 2)) (some 2)) 2
      (laggedF qid rawB 2) (by decide) rfl (by decide)⟩

/-- C4 counterexample: on five raw closes, `set_nlags(3)` succeeds once but
raises the lag count error on the immediately repeated call, refuting the
claim that the second call always succeeds with a bit-identical sample. -/
theorem C4_second_call_fails :
    exceptIsOk ((dataset_init qid (some rawA)).bind
      (fun d0 => nlags_setter qid d0 (some 3))) = true ∧
    ((dataset_init qid (some rawA)).bind
      (fun d0 => (nlags_setter qid d0 (some 3)).bind
        (fun d1 => nlags_setter qid d1 (some 3))))
      = .error (.valueError "Must have less lags than length of sample dataset") :=
  ⟨by decide, by decide⟩

/-- C5 (amended): after every successful operation sequence, `sample` is the
pipeline output of the current `raw` for the lag setting in force when the
sample was last recomputed; a `set_nlags(None)` only clears the `nlags`
attribute, so the current attribute can lag behind the sample. -/
theorem C5_sample_invariant {α : Type} [Div α] (log : α → α)
    (input : Option (List (RawRow α))) (ops : List (DsOp α)) (ds0 ds : Dataset α)
    (h0 : dataset_init log input = .ok ds0)
    (h : runOps log ds0 ops = .ok ds) :
    sampleInv log ds := by
  have hInv0 : sampleInv log ds0 := by
    unfold dataset_init at h0
    cases hrs : raw_setter log { raw := none, sample := none, nlags := none } input with
    | error e => rw [hrs] at h0; cases h0
    | ok ds1 =>
        rw [hrs] at h0
        exact nlags_setter_inv (raw_setter_inv hrs) h0
  exact runOps_inv ops ds0 ds hInv0 h

/-- C5 witness: the invariant instantiated on a concrete run. -/
theorem C5_sample_invariant_witness :
    dataset_init qid (some rawD) = .ok (Dataset.mk (some rawD) (some (logretF qid rawD)) none) ∧
    runOps qid (Dataset.mk (some rawD) (some (logretF qid rawD)) none)
        [DsOp.setN (some 2), DsOp.setN none]
      = .ok (Dataset.mk (some rawD) (some (laggedF qid rawD 2)) none) ∧
    sampleInv qid (Dataset.mk (some rawD) (some (laggedF qid rawD 2)) none) :=
  ⟨by decide, by decide,
    C5_sample_invariant qid (some rawD) [DsOp.setN (some 2), DsOp.setN none]
      (Dataset.mk (some rawD) (some (logretF qid rawD)) none)
      (Dataset.mk (some rawD) (some (laggedF qid rawD 2)) none)
      (by decide) (by decide)⟩

/-- C5 counterexample: construct on four raw closes, `set_nlags(2)`, then
`set_nlags(None)`: every step succeeds, yet afterwards `nlags` is unset while
`sample` still holds the lagged table, not the LogReturns pipeline output of
the current raw and current nlags, refuting the claimed invariant. -/
theorem C5_invariant_breaks :
    ((dataset_init qid (some rawC)).bind
      (fun d0 => runOps qid d0 [DsOp.setN (some 2), DsOp.setN none]))
      = .ok (Dataset.mk (some rawC) (some (laggedF qid rawC 2)) none) ∧
    some (laggedF qid rawC 2) ≠ some (logretF qid rawC) :=
  ⟨by decide, by decide⟩

/-- C6 (code bug): with a valid datetime start and a non-timestamp end the
validity check passes -- the source combines the two `ensure_datetime`
results with `|`, although its comment says "ensure datetime parameters are
valid" -- and the subsequent `(start - end)` raises an uncaught `TypeError`
instead of the typed InvalidRange ValueError. -/
theorem C6_mixed_bounds_type_error :
    ensure_datetime (PyVal.datetime 100) = true ∧
    ensure_datetime (PyVal.int 42) = false ∧
    read_py "BTC" (.datetime 100) (.int 42) (.str "data") false (Store.mk [] []) false
      = .raised .typeError ∧
    read_py "BTC" (.datetime 100) (.datetime 50) (.str "data") false (Store.mk [] []) false
      = .raised (.valueError "Start time must be prior to end time") := by
  refine ⟨rfl, rfl, by decide, by decide⟩

/-- C7 (amended): `set_nlags(None)` on any Dataset -- in particular one in
state Lagged(k) -- succeeds and changes only the `nlags` attribute; the
sample keeps its lag columns and dropped rows, and is not recomputed to the
LogReturns frame. -/
theorem C7_set_nlags_none_only_clears_attr {α : Type} [Div α] (log : α → α)
    (ds : Dataset α) :
    nlags_setter log ds none = .ok { ds with nlags := none } := rfl

/-- C7 counterexample: from Lagged(2) on four raw closes, `set_nlags(None)`
leaves the lagged sample in place, which differs from the LogReturns frame
the claim requires. -/
theorem C7_sample_keeps_lags :
    ((dataset_init qid (some rawE)).bind
      (fun d0 => (nlags_setter qid d0 (some 2)).bind
        (fun d1 => nlags_setter qid d1 none)))
      = .ok (Dataset.mk (some rawE) (some (laggedF qid rawE 2)) none) ∧
    some (laggedF qid rawE 2) ≠ some (logretF qid rawE) :=
  ⟨by decide, by decide⟩

/-- C8 (amended): on a container with no stored rows for the symbol, the
extent query succeeds with the empty marker (not an error), while read-all
prints "No data found" and returns the absent value None rather than an
empty sequence. -/
theorem C8_empty_symbol (sym : String)
    (hs : pyUpper sym = "BTC" ∨ pyUpper sym = "ETH")
    (st : Store) (file : PyVal) (h : st.get (symOf sym) = []) :
    minmax_py sym file st false = .ok [] (hdf5Name (pyStr file), some (none, none)) ∧
    read_py sym .none_ .none_ file true st false
      = .ok ["No data found in " ++ hdf5Name (pyStr file)] (hdf5Name (pyStr file), none) := by
  have hb : symValid sym = true := by
    unfold symValid
    cases hs with
    | inl h2 => rw [h2]; rfl
    | inr h2 => rw [h2]; rfl
  constructor
  · simp [minmax_py, ensure_hdf5, hb, h, extentOf]
  · simp [read_py, read_body, ensure_hdf5, hb, h, extentOf, isNoneV]

/-- C8 witness: the empty-store behavior at a concrete input. -/
theorem C8_empty_symbol_witness :
    minmax_py "BTC" (.str "data") (Store.mk [] []) false
      = .ok [] (hdf5Name (pyStr (.str "data")), some (none, none)) ∧
    read_py "BTC" .none_ .none_ (.str "data") true (Store.mk [] []) false
      = .ok ["No data found in " ++ hdf5Name (pyStr (.str "data"))]
          (hdf5Name (pyStr (.str "data")), none) :=
  C8_empty_symbol "BTC" (Or.inl (by decide)) (Store.mk [] []) (.str "data") (by decide)

/-- C8 counterexample: read-all on an empty store returns the absent value
None (after printing), not a successful empty sequence of rows. -/
theorem C8_read_all_absent :
    read_py "ETH" .none_ .none_ (.str "data") true (Store.mk [] []) false
      = .ok ["No data found in data.h5"] ("data.h5", none) := by
  decide

/-- C9 (amended): every symbol whose *uppercased* form lies outside
{BTC, ETH} makes append, extent, read-all and a validated range read raise
the InvalidSymbol ValueError before any container access; symbols are
accepted case-insensitively, so the gate is on the uppercased value. -/
theorem C9_uppercased_symbol_gate (sym : String)
    (hs : ¬(pyUpper sym = "BTC" ∨ pyUpper sym = "ETH"))
    (data file : PyVal) (st : Store) (io : Bool) (a b : Nat) (hab : a < b) :
    append_py sym data file st io = .raised (.valueError "Symbol must be BTC or ETH") ∧
    minmax_py sym file st io = .raised (.valueError "Symbol must be BTC or ETH") ∧
    read_py sym .none_ .none_ file true st io
      = .raised (.valueError "Symbol must be BTC or ETH") ∧
    read_py sym (.datetime a) (.datetime b) file false st io
      = .raised (.valueError "Symbol must be BTC or ETH") := by
  push_neg at hs
  have h1 : (pyUpper sym == "BTC") = false := beq_eq_false_iff_ne.mpr hs.1
  have h2 : (pyUpper sym == "ETH") = false := beq_eq_false_iff_ne.mpr hs.2
  have hb : symValid sym = false := by
    unfold symValid
    rw [h1, h2]
    rfl
  have hlt : ¬(0 ≤ (a : Int) - (b : Int)) := by omega
  refine ⟨?_, ?_, ?_, ?_⟩ <;>
    simp [append_py, minmax_py, read_py, read_body, pySub, ensure_datetime, hb, hlt]

/-- C9 witness: the uppercased gate at a concrete invalid symbol. -/
theorem C9_uppercased_symbol_gate_witness :
    append_py "DOGE" (.df []) (.str "data") (Store.mk [] []) false
      = .raised (.valueError "Symbol must be BTC or ETH") ∧
    minmax_py "DOGE" (.str "data") (Store.mk [] []) false
      = .raised (.valueError "Symbol must be BTC or ETH") ∧
    read_py "DOGE" .none_ .none_ (.str "data") true (Store.mk [] []) false
      = .raised (.valueError "Symbol must be BTC or ETH") ∧
    read_py "DOGE" (.datetime 0) (.datetime 1) (.str "data") false (Store.mk [] []) false
      = .raised (.valueError "Symbol must be BTC or ETH") :=
  C9_uppercased_symbol_gate "DOGE" (by decide) (.df []) (.str "data")
    (Store.mk [] []) false 0 1 (by decide)

/-- C9 counterexample: the lowercase string "btc" lies outside the
enumeration {BTC, ETH} as a value, yet append accepts it (and touches the
container) instead of raising InvalidSymbol. -/
theorem C9_lowercase_accepted :
    ("btc" ∈ (["BTC", "ETH"] : List String)) = False ∧
    append_py "btc" (.df []) (.str "data") (Store.mk [] []) false
      = .ok [] ("data.h5", Store.mk [] []) := by
  refine ⟨by simp, by decide⟩

lemma string_data_append (s t : String) : (s ++ t).data = s.data ++ t.data := by
  cases s
  cases t
  rfl

lemma pyLast3_append_h5 (s : String) : pyLast3 (s ++ ".h5") = ".h5" := by
  unfold pyLast3
  rw [string_data_append]
  have h3 : (".h5" : String).data = ['.', 'h', '5'] := rfl
  rw [h3]
  have hlen : (s.data ++ ['.', 'h', '5']).length - 3 = s.data.length := by
    simp [List.length_append]
  rw [hlen]
  have hdrop : (s.data ++ ['.', 'h', '5']).drop s.data.length = ['.', 'h', '5'] :=
    List.drop_left s.data ['.', 'h', '5']
  rw [hdrop]

lemma pyLast3_hdf5Name (s : String) : pyLast3 (hdf5Name s) = ".h5" := by
  unfold hdf5Name
  split
  · exact pyLast3_append_h5 s
  · rename_i h
    exact not_ne_iff.mp h

/-- C10 (amended): every operation resolves the container through
`ensure_hdf5(str(file))`: the name is first stringified and then
`.h5`-suffixed when the suffix is missing, so "data" and "data.h5" address
the same container; because of the `str()` conversion a non-string file
value is stringified rather than failing -- only a direct `ensure_hdf5`
call on a non-string raises. -/
theorem C10_name_normalization (v : PyVal) (sym : String) (data : PyVal)
    (st : Store) (io : Bool) (n : Int) :
    pyLast3 (hdf5Name (pyStr v)) = ".h5" ∧
    hdf5Name "data" = "data.h5" ∧
    hdf5Name "data.h5" = "data.h5" ∧
    ensure_hdf5 (.int n) = .error (.valueError "Please enter a valid name") ∧
    append_py sym data (.int n) st io = append_py sym data (.str (toString n)) st io ∧
    read_py sym .none_ .none_ (.int n) true st io
      = read_py sym .none_ .none_ (.str (toString n)) true st io ∧
    minmax_py sym (.int n) st io = minmax_py sym (.str (toString n)) st io :=
  ⟨pyLast3_hdf5Name (pyStr v), by decide, by decide, rfl, rfl, rfl, rfl⟩

/-- C10 counterexample: the non-string file value 42 does not fail; the
operation stringifies it and appends against the container "42.h5". -/
theorem C10_nonstring_accepted :
    append_py "BTC" (.df []) (.int 42) (Store.mk [] []) false
      = .ok [] ("42.h5", Store.mk [] []) := by
  decide
